import Mathlib

/-!
Shallow embedding of the hitchwiki ingestion script (src/index.js).

The script performs one incremental sync pass: it resolves a watermark from
the target store (`getLastIngestedRow`), selects newer source rows from the
SQLite dump (`getSrcRows`), transforms them (`formatRow`) and upserts them
into the target store (`insertRows`), with a try/catch around the insert
stage only (`ingest`).

Modelling choices, recorded once here:
* Firestore timestamps are pairs of whole seconds (Int) and a nanosecond
  part (Nat), ordered lexicographically; `.seconds` projection is the
  whole-second truncation the script uses on line 206.
* The SQLite `datetime` column is modelled as a `Timestamp`.  The SQL text
  comparison `datetime > DATETIME(cutoff, 'unixepoch')` compares the stored
  datetime text with a whole-second cutoff string; for well-formed datetime
  text (fractional digits present exactly when nonzero) this coincides with
  the chronological comparison against the instant (cutoff, 0), which is how
  it is embedded.
* `geofire.geohashForLocation` is an external pure capability and is passed
  in as a function parameter; no claim constrains its value.
* The Firestore collection is a finite map from document id to document,
  embedded as an association list; `setDoc` is the upsert.
* `Timestamp.now()` is read once per transformed row; the ambient clock is
  passed in as a function from the row being transformed to the time read.
-/

/-- Firestore timestamp: whole seconds since the epoch and a nanosecond part. -/
structure Timestamp where
  seconds : Int
  nanos : Nat
deriving DecidableEq, Repr

/-- Chronological order on timestamps (lexicographic on seconds, then nanos). -/
def Timestamp.le (a b : Timestamp) : Prop :=
  a.seconds < b.seconds ∨ (a.seconds = b.seconds ∧ a.nanos ≤ b.nanos)

/-- Strict chronological order on timestamps. -/
def Timestamp.lt (a b : Timestamp) : Prop :=
  a.seconds < b.seconds ∨ (a.seconds = b.seconds ∧ a.nanos < b.nanos)

instance : LE Timestamp := ⟨Timestamp.le⟩

instance : LT Timestamp := ⟨Timestamp.lt⟩

instance instDecTimestampLe (a b : Timestamp) : Decidable (a ≤ b) :=
  inferInstanceAs (Decidable (a.seconds < b.seconds ∨ (a.seconds = b.seconds ∧ a.nanos ≤ b.nanos)))

instance instDecTimestampLt (a b : Timestamp) : Decidable (a < b) :=
  inferInstanceAs (Decidable (a.seconds < b.seconds ∨ (a.seconds = b.seconds ∧ a.nanos < b.nanos)))

theorem Timestamp.le_refl (a : Timestamp) : a ≤ a :=
  Or.inr ⟨rfl, Nat.le_refl _⟩

theorem Timestamp.le_trans {a b c : Timestamp} (hab : a ≤ b) (hbc : b ≤ c) : a ≤ c := by
  rcases hab with h | ⟨h1, h2⟩ <;> rcases hbc with h' | ⟨h1', h2'⟩
  · exact Or.inl (lt_trans h h')
  · exact Or.inl (h1' ▸ h)
  · exact Or.inl (h1 ▸ h')
  · exact Or.inr ⟨h1.trans h1', Nat.le_trans h2 h2'⟩

theorem Timestamp.le_of_lt {a b : Timestamp} (h : a < b) : a ≤ b := by
  rcases h with h | ⟨h1, h2⟩
  · exact Or.inl h
  · exact Or.inr ⟨h1, Nat.le_of_lt h2⟩

theorem Timestamp.le_total (a b : Timestamp) : a ≤ b ∨ b ≤ a := by
  rcases lt_trichotomy a.seconds b.seconds with h | h | h
  · exact Or.inl (Or.inl h)
  · rcases Nat.le_total a.nanos b.nanos with h' | h'
    · exact Or.inl (Or.inr ⟨h, h'⟩)
    · exact Or.inr (Or.inr ⟨h.symm, h'⟩)
  · exact Or.inr (Or.inl h)

theorem Timestamp.seconds_le_of_le {a b : Timestamp} (h : a ≤ b) : a.seconds ≤ b.seconds := by
  rcases h with h | ⟨h1, _⟩
  · exact Int.le_of_lt h
  · exact Int.le_of_eq h1

/-- The literal provenance substring stripped from author names (line 147). -/
def hitchwikiTag : List Char := "(Hitchwiki)".data

/-- JS `String.prototype.replace` with a string pattern and replacement ""
removes only the first occurrence of the pattern (line 147). -/
def removeFirstOcc (pat : List Char) : List Char → List Char
  | [] => []
  | c :: cs =>
    if pat.isPrefixOf (c :: cs) then (c :: cs).drop pat.length
    else c :: removeFirstOcc pat cs

/-- JS `String.prototype.trim`: drop whitespace from both ends. -/
def trimChars (s : List Char) : List Char :=
  ((s.dropWhile Char.isWhitespace).reverse.dropWhile Char.isWhitespace).reverse

/-- Embeds `(name || "").replace("(Hitchwiki)", "").trim()` of formatRow
(line 147); an absent name defaults to the empty string. -/
def cleanName (name : Option String) : String :=
  (trimChars (removeFirstOcc hitchwikiTag (name.getD "").data)).asString

/-- Row of the `points` table of the SQLite dump, with the columns the query
on lines 84-93 reads (id, lat, lon, rating, name, datetime) and filters on
(banned, reviewed). -/
structure SrcRow where
  id : String
  lat : Int
  lon : Int
  rating : Int
  name : Option String
  datetime : Timestamp
  banned : Bool
  reviewed : Bool
deriving DecidableEq, Repr

/-- The WHERE clause of getSrcRows (lines 87-91): banned = 0, reviewed = 1,
rating > 2, datetime strictly after the whole-second cutoff instant. -/
def rowSelected (cutoffTimestamp : Int) (r : SrcRow) : Bool :=
  !r.banned && r.reviewed && decide (2 < r.rating) &&
    decide ((⟨cutoffTimestamp, 0⟩ : Timestamp) < r.datetime)

/-- Embeds getSrcRows (lines 79-100): the filtered rows of the dump, ordered
ascending by datetime (ORDER BY datetime). -/
def getSrcRows (db : List SrcRow) (cutoffTimestamp : Int) : List SrcRow :=
  (db.filter (rowSelected cutoffTimestamp)).mergeSort fun a b => decide (a.datetime ≤ b.datetime)

/-- Firestore GeoPoint as built on line 132. -/
structure GeoPoint where
  lat : Int
  lon : Int
deriving DecidableEq, Repr

/-- The `user` field of a target document (lines 145-148). -/
structure UserField where
  type : String
  name : String
deriving DecidableEq, Repr

/-- The `source` provenance field of a target document (lines 156-160). -/
structure SourceField where
  type : String
  id : String
  ingestedTimestamp : Timestamp
deriving DecidableEq, Repr

/-- Target document shape produced by formatRow (lines 128-161). -/
structure DstRow where
  coords : GeoPoint
  geohash : String
  rating : Int
  user : UserField
  submittedTimestamp : Timestamp
  source : SourceField
deriving DecidableEq, Repr

/-- Embeds `Timestamp.fromDate(new Date(datetime))` (line 152): a JS Date has
millisecond precision, so the nanosecond part is truncated to whole
milliseconds; the seconds are unchanged. -/
def fromDate (t : Timestamp) : Timestamp :=
  ⟨t.seconds, t.nanos / 1000000 * 1000000⟩

/-- Embeds formatRow (lines 125-164).  `geohashForLocation` is the external
geofire capability; `now` is the clock value read by `Timestamp.now()` while
this row is transformed. -/
def formatRow (geohashForLocation : Int → Int → String) (now : Timestamp) (r : SrcRow) : DstRow :=
  { coords := ⟨r.lat, r.lon⟩
    geohash := geohashForLocation r.lat r.lon
    rating := r.rating - 2
    user := ⟨"guest", cleanName r.name⟩
    submittedTimestamp := fromDate r.datetime
    source := ⟨"hitchwiki", r.id, now⟩ }

/-- The `hitching-spots` Firestore collection: a finite map from document id
to document, as an association list. -/
abbrev Store := List (String × DstRow)

/-- Firestore `setDoc`: upsert addressed by document id (lines 178-181). -/
def setDoc : Store → String → DstRow → Store
  | [], key, row => [(key, row)]
  | (k, v) :: rest, key, row =>
    if k = key then (key, row) :: rest else (k, v) :: setDoc rest key row

/-- Lookup of a document by id. -/
def getDoc : Store → String → Option DstRow
  | [], _ => none
  | (k, v) :: rest, key => if k = key then some v else getDoc rest key

/-- The document id used by insertRows (line 179). -/
def docKey (row : DstRow) : String :=
  row.source.type ++ "-" ++ row.source.id

/-- Embeds getLastIngestedRow (lines 105-120): among the documents whose
source.type is "hitchwiki", the one with the greatest submittedTimestamp
(orderBy submittedTimestamp desc, limit 1), or none when the store holds no
such document — the optional chaining `snapshot.docs[0]?.data()` makes the
empty result a value, not a thrown error. -/
def getLastIngestedRow : Store → Option DstRow
  | [] => none
  | (_, d) :: rest =>
    let best := getLastIngestedRow rest
    if d.source.type = "hitchwiki" then
      match best with
      | none => some d
      | some b => if b.submittedTimestamp < d.submittedTimestamp then some d else some b
    else best

/-- Max number of operations before ending process (line 36). -/
def MAX_WRITES : Nat := 10000

/-- Console output of the insert loop (lines 182-188). -/
inductive LogEvent
  | progress (done total : Nat) (id : String)
  | quotaReached
deriving DecidableEq, Repr

/-- The loop body of insertRows (lines 177-189): each row is upserted, the
counter is incremented, and when the counter has reached MAX_WRITES the quota
message is logged — but the loop is not exited, so iteration continues. -/
def insertRowsLoop (db : Store) (done total : Nat) (logs : List LogEvent) :
    List DstRow → Store × Nat × List LogEvent
  | [] => (db, done, logs.reverse)
  | row :: rest =>
    let db' := setDoc db (docKey row) row
    let done' := done + 1
    let logs' := LogEvent.progress done' total row.source.id :: logs
    let logs'' := if MAX_WRITES ≤ done' then LogEvent.quotaReached :: logs' else logs'
    insertRowsLoop db' done' total logs'' rest

/-- Embeds insertRows (lines 169-190): final store, number of writes issued,
console output. -/
def insertRows (db : Store) (rows : List DstRow) : Store × Nat × List LogEvent :=
  insertRowsLoop db 0 rows.length [] rows

/-- The cutoff computation of ingest (lines 203-207): 0 when no hitchwiki
document exists, else the `.seconds` field of the latest submittedTimestamp. -/
def resolveCutoff (store : Store) : Int :=
  match getLastIngestedRow store with
  | none => 0
  | some row => row.submittedTimestamp.seconds

/-- Dataflow of one failure-free pass of ingest (lines 195-218): resolve the
cutoff, select, transform, insert. -/
def ingest (geohashForLocation : Int → Int → String) (now : SrcRow → Timestamp)
    (srcDb : List SrcRow) (store : Store) : Store × Nat × List LogEvent :=
  let cutoff := resolveCutoff store
  let srcRows := getSrcRows srcDb cutoff
  let dstRows := srcRows.map fun r => formatRow geohashForLocation (now r) r
  insertRows store dstRows

/-- The store after one failure-free pass. -/
def passStore (geohashForLocation : Int → Int → String) (now : SrcRow → Timestamp)
    (srcDb : List SrcRow) (store : Store) : Store :=
  (ingest geohashForLocation now srcDb store).1

/-- insertRows with an injected write failure: the write at 0-based index
`failAt` throws, aborting the rest of the batch; earlier writes remain
committed.  Result is the store reached, tagged ok or error. -/
def insertRowsFallible (failAt : Option Nat) (db : Store) (idx : Nat) :
    List DstRow → Except Store Store
  | [] => Except.ok db
  | row :: rest =>
    if failAt = some idx then Except.error db
    else insertRowsFallible failAt (setDoc db (docKey row) row) (idx + 1) rest

/-- One full run of the script with injected stage failures, returning the
final store and the node process exit code.  The download (line 198), the
watermark read (line 204), the selection (line 209) and the transform
(line 210) run outside the try block, so an exception there rejects the
top-level `ingest()` promise, which ends the node process with a nonzero
exit code (unhandled rejection).  Only insertRows runs inside the
try/catch (lines 212-217): a write failure is caught and logged
("Failed:"), the function returns normally, and the process exits 0. -/
def ingestProcess (dlFails wmFails selFails tfFails : Bool) (writeFailAt : Option Nat)
    (geohashForLocation : Int → Int → String) (now : SrcRow → Timestamp)
    (srcDb : List SrcRow) (store : Store) : Store × Nat :=
  if dlFails then (store, 1)
  else if wmFails then (store, 1)
  else
    let cutoff := resolveCutoff store
    if selFails then (store, 1)
    else
      let srcRows := getSrcRows srcDb cutoff
      if tfFails then (store, 1)
      else
        let dstRows := srcRows.map fun r => formatRow geohashForLocation (now r) r
        match insertRowsFallible writeFailAt store 0 dstRows with
        | Except.ok s => (s, 0)
        | Except.error s => (s, 0)

/-! ## Helper lemmas -/

theorem Timestamp.le_iff {a b : Timestamp} :
    a ≤ b ↔ (a.seconds < b.seconds ∨ (a.seconds = b.seconds ∧ a.nanos ≤ b.nanos)) := Iff.rfl

theorem Timestamp.lt_iff {a b : Timestamp} :
    a < b ↔ (a.seconds < b.seconds ∨ (a.seconds = b.seconds ∧ a.nanos < b.nanos)) := Iff.rfl

theorem Timestamp.le_of_not_lt {a b : Timestamp} (h : ¬ a < b) : b ≤ a := by
  rw [Timestamp.lt_iff] at h
  rw [Timestamp.le_iff]
  omega

theorem String.append_cancel_prefix {p a b : String} (h : p ++ a = p ++ b) : a = b := by
  have h2 := congrArg String.data h
  simp only [String.data_append] at h2
  exact String.ext (List.append_cancel_left h2)

theorem setDoc_idem (s : Store) (key : String) (row : DstRow) :
    setDoc (setDoc s key row) key row = setDoc s key row := by
  induction s with
  | nil => simp [setDoc]
  | cons kv rest ih =>
    obtain ⟨k, v⟩ := kv
    by_cases h : k = key
    · simp [setDoc, h]
    · simp [setDoc, h, ih]

theorem mem_setDoc {s : Store} {key : String} {row : DstRow} {kv : String × DstRow}
    (h : kv ∈ setDoc s key row) : kv ∈ s ∨ kv = (key, row) := by
  induction s with
  | nil => simpa [setDoc] using h
  | cons hd rest ih =>
    obtain ⟨k, v⟩ := hd
    by_cases hk : k = key
    · simp only [setDoc, if_pos hk, List.mem_cons] at h
      rcases h with h | h
      · exact Or.inr h
      · exact Or.inl (List.mem_cons_of_mem _ h)
    · simp only [setDoc, if_neg hk, List.mem_cons] at h
      rcases h with h | h
      · exact Or.inl (h ▸ List.mem_cons_self _ _)
      · rcases ih h with h2 | h2
        · exact Or.inl (List.mem_cons_of_mem _ h2)
        · exact Or.inr h2

theorem exists_mem_setDoc {s : Store} {k2 : String} {v2 : DstRow} (key : String) (row : DstRow)
    (h : (k2, v2) ∈ s) : ∃ v3, (k2, v3) ∈ setDoc s key row ∧ (v3 = v2 ∨ v3 = row) := by
  induction s with
  | nil => cases h
  | cons hd rest ih =>
    obtain ⟨k, v⟩ := hd
    by_cases hk : k = key
    · simp only [setDoc, if_pos hk]
      rcases List.mem_cons.mp h with h | h
      · obtain ⟨hk2, hv2⟩ := Prod.mk.injEq .. ▸ h
        refine ⟨row, ?_, Or.inr rfl⟩
        have : k2 = key := by rw [← hk]; exact congrArg Prod.fst h
        exact this ▸ List.mem_cons_self _ _
      · exact ⟨v2, List.mem_cons_of_mem _ h, Or.inl rfl⟩
    · simp only [setDoc, if_neg hk]
      rcases List.mem_cons.mp h with h | h
      · exact ⟨v2, h ▸ List.mem_cons_self _ _, Or.inl rfl⟩
      · obtain ⟨v3, hmem, hv3⟩ := ih h
        exact ⟨v3, List.mem_cons_of_mem _ hmem, hv3⟩

theorem getDoc_setDoc_self (s : Store) (key : String) (row : DstRow) :
    getDoc (setDoc s key row) key = some row := by
  induction s with
  | nil => simp [setDoc, getDoc]
  | cons hd rest ih =>
    obtain ⟨k, v⟩ := hd
    by_cases hk : k = key
    · simp [setDoc, getDoc, hk]
    · simp [setDoc, getDoc, hk, ih]

theorem getDoc_setDoc_ne (s : Store) (key : String) (row : DstRow) (k2 : String)
    (h : k2 ≠ key) : getDoc (setDoc s key row) k2 = getDoc s k2 := by
  induction s with
  | nil =>
    simp only [setDoc, getDoc]
    rw [if_neg (fun h2 => h h2.symm)]
  | cons hd rest ih =>
    obtain ⟨k, v⟩ := hd
    by_cases hk : k = key
    · simp only [setDoc, if_pos hk, getDoc]
      rw [if_neg (fun h2 => h h2.symm), if_neg (fun h2 => h ((hk ▸ h2 : key = k2)).symm)]
    · simp only [setDoc, if_neg hk, getDoc]
      by_cases hk2 : k = k2
      · rw [if_pos hk2, if_pos hk2]
      · rw [if_neg hk2, if_neg hk2]
        exact ih

theorem insertRowsLoop_count (rows : List DstRow) :
    ∀ (db : Store) (done total : Nat) (logs : List LogEvent),
    (insertRowsLoop db done total logs rows).2.1 = done + rows.length := by
  induction rows with
  | nil => intro db done total logs; simp [insertRowsLoop]
  | cons row rest ih =>
    intro db done total logs
    simp only [insertRowsLoop]
    rw [ih]
    simp [Nat.add_assoc, Nat.add_comm 1 rest.length]

theorem mem_insertRowsLoop_store (rows : List DstRow) :
    ∀ (db : Store) (done total : Nat) (logs : List LogEvent) (kv : String × DstRow),
    kv ∈ (insertRowsLoop db done total logs rows).1 →
    kv ∈ db ∨ (kv.2 ∈ rows ∧ kv.1 = docKey kv.2) := by
  induction rows with
  | nil => intro db done total logs kv h; exact Or.inl (by simpa [insertRowsLoop] using h)
  | cons row rest ih =>
    intro db done total logs kv h
    simp only [insertRowsLoop] at h
    rcases ih _ _ _ _ kv h with h2 | ⟨h2, h3⟩
    · rcases mem_setDoc h2 with h3 | h3
      · exact Or.inl h3
      · refine Or.inr ⟨?_, ?_⟩
        · rw [show kv.2 = row from congrArg Prod.snd h3]
          exact List.mem_cons_self _ _
        · rw [congrArg Prod.fst h3, congrArg Prod.snd h3]
    · exact Or.inr ⟨List.mem_cons_of_mem _ h2, h3⟩

theorem exists_mem_insertRowsLoop_store (rows : List DstRow) :
    ∀ (db : Store) (done total : Nat) (logs : List LogEvent) (k : String) (v : DstRow),
    (k, v) ∈ db →
    ∃ v2, (k, v2) ∈ (insertRowsLoop db done total logs rows).1 ∧ (v2 = v ∨ v2 ∈ rows) := by
  induction rows with
  | nil =>
    intro db done total logs k v h
    exact ⟨v, by simpa [insertRowsLoop] using h, Or.inl rfl⟩
  | cons row rest ih =>
    intro db done total logs k v h
    obtain ⟨v3, hmem, hv3⟩ := exists_mem_setDoc (docKey row) row h
    obtain ⟨v2, hmem2, hv2⟩ := ih _ _ _ _ k v3 hmem
    refine ⟨v2, by simpa [insertRowsLoop] using hmem2, ?_⟩
    rcases hv2 with h2 | h2
    · rcases hv3 with h3 | h3
      · exact Or.inl (h2.trans h3)
      · exact Or.inr (h2.trans h3 ▸ List.mem_cons_self _ _)
    · exact Or.inr (List.mem_cons_of_mem _ h2)

theorem getDoc_insertRowsLoop_not_written (rows : List DstRow) :
    ∀ (db : Store) (done total : Nat) (logs : List LogEvent) (key : String),
    (∀ row ∈ rows, docKey row ≠ key) →
    getDoc (insertRowsLoop db done total logs rows).1 key = getDoc db key := by
  induction rows with
  | nil => intro db done total logs key _; simp [insertRowsLoop]
  | cons row rest ih =>
    intro db done total logs key h
    simp only [insertRowsLoop]
    rw [ih _ _ _ _ key (fun r hr => h r (List.mem_cons_of_mem _ hr))]
    exact getDoc_setDoc_ne _ _ _ _ (fun h2 => h row (List.mem_cons_self _ _) h2.symm)

theorem getDoc_insertRowsLoop_written (rows : List DstRow) :
    ∀ (db : Store) (done total : Nat) (logs : List LogEvent) (key : String),
    (∃ row ∈ rows, docKey row = key) →
    ∃ v, getDoc (insertRowsLoop db done total logs rows).1 key = some v ∧
      v ∈ rows ∧ docKey v = key := by
  induction rows with
  | nil => intro db done total logs key h; exact absurd h (by simp)
  | cons row rest ih =>
    intro db done total logs key h
    by_cases hrest : ∃ r ∈ rest, docKey r = key
    · obtain ⟨v, hv, hvmem, hvkey⟩ := ih (setDoc db (docKey row) row) (done + 1) total _ key hrest
      exact ⟨v, by simpa [insertRowsLoop] using hv, List.mem_cons_of_mem _ hvmem, hvkey⟩
    · have hkey : docKey row = key := by
        rcases h with ⟨r, hr, hrkey⟩
        rcases List.mem_cons.mp hr with h2 | h2
        · exact h2 ▸ hrkey
        · exact absurd ⟨r, h2, hrkey⟩ hrest
      refine ⟨row, ?_, List.mem_cons_self _ _, hkey⟩
      simp only [insertRowsLoop]
      rw [getDoc_insertRowsLoop_not_written rest _ _ _ _ key
        (fun r hr h2 => hrest ⟨r, hr, h2⟩)]
      rw [← hkey]
      exact getDoc_setDoc_self _ _ _

theorem getLastIngestedRow_eq_none {s : Store} (h : getLastIngestedRow s = none) :
    ∀ kv ∈ s, kv.2.source.type ≠ "hitchwiki" := by
  induction s with
  | nil => intro kv hkv; cases hkv
  | cons hd rest ih =>
    obtain ⟨k, d⟩ := hd
    intro kv hkv
    simp only [getLastIngestedRow] at h
    by_cases hd2 : d.source.type = "hitchwiki"
    · rw [if_pos hd2] at h
      rcases h2 : getLastIngestedRow rest with _ | b
      · rw [h2] at h; cases h
      · simp only [h2] at h
        by_cases h3 : b.submittedTimestamp < d.submittedTimestamp
        · rw [if_pos h3] at h; cases h
        · rw [if_neg h3] at h; cases h
    · rw [if_neg hd2] at h
      rcases List.mem_cons.mp hkv with h2 | h2
      · rw [congrArg Prod.snd h2]; exact hd2
      · exact ih h kv h2

theorem getLastIngestedRow_spec {s : Store} {d : DstRow}
    (h : getLastIngestedRow s = some d) :
    d.source.type = "hitchwiki" ∧ (∃ k, (k, d) ∈ s) ∧
      ∀ kv ∈ s, kv.2.source.type = "hitchwiki" →
        kv.2.submittedTimestamp ≤ d.submittedTimestamp := by
  induction s generalizing d with
  | nil => cases h
  | cons hd rest ih =>
    obtain ⟨k0, d0⟩ := hd
    simp only [getLastIngestedRow] at h
    by_cases hd0 : d0.source.type = "hitchwiki"
    · rw [if_pos hd0] at h
      rcases h2 : getLastIngestedRow rest with _ | b
      · rw [h2] at h
        have hdd : d = d0 := (Option.some.injEq .. ▸ h).symm
        subst hdd
        refine ⟨hd0, ⟨k0, List.mem_cons_self _ _⟩, ?_⟩
        intro kv hkv htype
        rcases List.mem_cons.mp hkv with h3 | h3
        · rw [congrArg Prod.snd h3]; exact Timestamp.le_refl _
        · exact absurd htype (getLastIngestedRow_eq_none h2 kv h3)
      · simp only [h2] at h
        obtain ⟨hbtype, ⟨kb, hbmem⟩, hbmax⟩ := ih h2
        by_cases h3 : b.submittedTimestamp < d0.submittedTimestamp
        · rw [if_pos h3] at h
          have hdd : d = d0 := (Option.some.injEq .. ▸ h).symm
          subst hdd
          refine ⟨hd0, ⟨k0, List.mem_cons_self _ _⟩, ?_⟩
          intro kv hkv htype
          rcases List.mem_cons.mp hkv with h4 | h4
          · rw [congrArg Prod.snd h4]; exact Timestamp.le_refl _
          · exact Timestamp.le_trans (hbmax kv h4 htype) (Timestamp.le_of_lt h3)
        · rw [if_neg h3] at h
          have hdd : d = b := (Option.some.injEq .. ▸ h).symm
          subst hdd
          refine ⟨hbtype, ⟨kb, List.mem_cons_of_mem _ hbmem⟩, ?_⟩
          intro kv hkv htype
          rcases List.mem_cons.mp hkv with h4 | h4
          · rw [congrArg Prod.snd h4]
            exact Timestamp.le_of_not_lt h3
          · exact hbmax kv h4 htype
    · rw [if_neg hd0] at h
      obtain ⟨hbtype, ⟨kb, hbmem⟩, hbmax⟩ := ih h
      refine ⟨hbtype, ⟨kb, List.mem_cons_of_mem _ hbmem⟩, ?_⟩
      intro kv hkv htype
      rcases List.mem_cons.mp hkv with h4 | h4
      · exact absurd ((congrArg (fun x => x.source.type) (congrArg Prod.snd h4)).symm ▸ htype) hd0
      · exact hbmax kv h4 htype

theorem getLastIngestedRow_isSome {s : Store} {k : String} {v : DstRow}
    (hmem : (k, v) ∈ s) (htype : v.source.type = "hitchwiki") :
    ∃ d, getLastIngestedRow s = some d := by
  rcases h : getLastIngestedRow s with _ | d
  · exact absurd htype (getLastIngestedRow_eq_none h (k, v) hmem)
  · exact ⟨d, rfl⟩

theorem rowSelected_iff {c : Int} {r : SrcRow} :
    rowSelected c r = true ↔
      r.banned = false ∧ r.reviewed = true ∧ 2 < r.rating ∧
        (⟨c, 0⟩ : Timestamp) < r.datetime := by
  simp [rowSelected, Bool.and_eq_true, Bool.not_eq_true', decide_eq_true_eq, and_assoc]

theorem mem_getSrcRows {db : List SrcRow} {c : Int} {r : SrcRow} :
    r ∈ getSrcRows db c ↔ r ∈ db ∧ rowSelected c r = true := by
  unfold getSrcRows
  rw [List.mem_mergeSort, List.mem_filter]

theorem getSrcRows_sorted (db : List SrcRow) (c : Int) :
    List.Pairwise (fun a b : SrcRow => a.datetime ≤ b.datetime) (getSrcRows db c) := by
  have h := @List.sorted_mergeSort SrcRow
    (fun a b : SrcRow => decide (a.datetime ≤ b.datetime))
    (fun a b c2 hab hbc => by
      simp only [decide_eq_true_eq] at hab hbc ⊢
      exact Timestamp.le_trans hab hbc)
    (fun a b => by
      simp only [Bool.or_eq_true, decide_eq_true_eq]
      exact Timestamp.le_total _ _)
    (db.filter (rowSelected c))
  exact h.imp (fun hab => by simpa using hab)

theorem removeFirstOcc_at_first (pat a b : List Char)
    (hfirst : ∀ i, i < a.length → pat.isPrefixOf ((a ++ (pat ++ b)).drop i) = false) :
    removeFirstOcc pat (a ++ (pat ++ b)) = a ++ b := by
  induction a with
  | nil =>
    simp only [List.nil_append]
    cases pat with
    | nil =>
      cases b with
      | nil => rfl
      | cons c cs => simp [removeFirstOcc, List.isPrefixOf]
    | cons p ps =>
      rw [List.cons_append]
      simp only [removeFirstOcc]
      have hpre : (p :: ps).isPrefixOf (p :: (ps ++ b)) = true := by
        rw [← List.cons_append]
        exact List.isPrefixOf_iff_prefix.mpr (List.prefix_append _ _)
      rw [if_pos hpre, ← List.cons_append]
      exact List.drop_left _ _
  | cons c a2 ih =>
    have h0 := hfirst 0 (Nat.succ_pos _)
    simp only [List.drop_zero, List.cons_append] at h0
    rw [List.cons_append, List.cons_append]
    simp only [removeFirstOcc]
    rw [if_neg (by simp [h0])]
    refine congrArg (c :: ·) (ih ?_)
    intro i hi
    have h2 := hfirst (i + 1) (by simpa using Nat.succ_lt_succ hi)
    simpa [List.cons_append] using h2

theorem docKey_formatRow (geohashForLocation : Int → Int → String) (now : Timestamp)
    (r : SrcRow) : docKey (formatRow geohashForLocation now r) = "hitchwiki-" ++ r.id := rfl

theorem insertRowsLoop_store (rows : List DstRow) :
    ∀ (db : Store) (done total : Nat) (logs : List LogEvent),
    (insertRowsLoop db done total logs rows).1 =
      rows.foldl (fun s row => setDoc s (docKey row) row) db := by
  induction rows with
  | nil => intro db done total logs; simp [insertRowsLoop]
  | cons row rest ih =>
    intro db done total logs
    simp only [insertRowsLoop, List.foldl_cons]
    exact ih _ _ _ _

/-- Geohash capability used for concrete runs; its value never matters. -/
def sampleGeohash : Int → Int → String := fun _ _ => ""

/-- Clock used for concrete runs. -/
def sampleNow : SrcRow → Timestamp := fun _ => ⟨0, 0⟩

/-- One eligible source row, as in the spec scenario. -/
def sampleSrcRow : SrcRow :=
  ⟨"42", 10, 20, 4, some "X (Hitchwiki)", ⟨100, 0⟩, false, true⟩

/-- A concrete transformed row. -/
def sampleDstRow : DstRow := formatRow sampleGeohash ⟨0, 0⟩ sampleSrcRow

/-- Claim C1: the writer is claimed to issue at most MAX_WRITES writes; in
the code the quota check (lines 186-188) only logs and the loop continues,
so a batch of MAX_WRITES + 1 rows gets MAX_WRITES + 1 writes issued. -/
theorem insertRows_exceeds_budget :
    (insertRows [] (List.replicate (MAX_WRITES + 1) sampleDstRow)).2.1 = MAX_WRITES + 1 := by
  unfold insertRows
  rw [insertRowsLoop_count]
  simp

/-- Claim C3: getSrcRows returns exactly the dump rows that are not banned,
are reviewed, have rating strictly above 2 and creation time strictly after
the cutoff instant; a row whose creation time equals the cutoff instant is
excluded; the result is ordered ascending by creation time. -/
theorem getSrcRows_characterization (db : List SrcRow) (cutoffTimestamp : Int) :
    (∀ r : SrcRow, r ∈ getSrcRows db cutoffTimestamp ↔
      (r ∈ db ∧ r.banned = false ∧ r.reviewed = true ∧ 2 < r.rating ∧
        (⟨cutoffTimestamp, 0⟩ : Timestamp) < r.datetime)) ∧
    (∀ r : SrcRow, r.datetime = ⟨cutoffTimestamp, 0⟩ →
      r ∉ getSrcRows db cutoffTimestamp) ∧
    List.Pairwise (fun a b : SrcRow => a.datetime ≤ b.datetime)
      (getSrcRows db cutoffTimestamp) := by
  refine ⟨?_, ?_, getSrcRows_sorted db cutoffTimestamp⟩
  · intro r
    rw [mem_getSrcRows, rowSelected_iff]
  · intro r heq hmem
    have h := (mem_getSrcRows.mp hmem).2
    rw [rowSelected_iff] at h
    have hlt := h.2.2.2
    rw [heq] at hlt
    rcases hlt with h2 | ⟨_, h2⟩
    · exact lt_irrefl _ h2
    · exact lt_irrefl _ h2

/-- Claim C4: when no document carries the hitchwiki provenance tag, the
watermark resolves to none (a value, not an error) and the cutoff is the
epoch origin 0; when one does, the cutoff is the seconds of the maximal
submittedTimestamp over the hitchwiki documents. -/
theorem resolveWatermark_first_run_and_max (store : Store) :
    ((∀ kv ∈ store, kv.2.source.type ≠ "hitchwiki") →
      getLastIngestedRow store = none ∧ resolveCutoff store = 0) ∧
    ∀ k d, (k, d) ∈ store → d.source.type = "hitchwiki" →
      ∃ m, getLastIngestedRow store = some m ∧ m.source.type = "hitchwiki" ∧
        (∃ k2, (k2, m) ∈ store) ∧
        resolveCutoff store = m.submittedTimestamp.seconds ∧
        ∀ k3 d3, (k3, d3) ∈ store → d3.source.type = "hitchwiki" →
          d3.submittedTimestamp ≤ m.submittedTimestamp := by
  constructor
  · intro hnone
    rcases hm : getLastIngestedRow store with _ | m
    · exact ⟨rfl, by simp [resolveCutoff, hm]⟩
    · obtain ⟨htype, ⟨k, hmem⟩, _⟩ := getLastIngestedRow_spec hm
      exact absurd htype (hnone (k, m) hmem)
  · intro k d hmem htype
    obtain ⟨m, hm⟩ := getLastIngestedRow_isSome hmem htype
    obtain ⟨htypem, hmemm, hmax⟩ := getLastIngestedRow_spec hm
    exact ⟨m, hm, htypem, hmemm, by simp [resolveCutoff, hm],
      fun k3 d3 h3 ht3 => hmax (k3, d3) h3 ht3⟩

/-- Claim C5: the write is an upsert addressed by the deterministic key
source.type + "-" + source.id, which for a transformed row is
"hitchwiki-" + id, and writing the transform of the same source record twice
leaves the store exactly as writing it once. -/
theorem upsert_idempotent (store : Store) (geohashForLocation : Int → Int → String)
    (now : Timestamp) (r : SrcRow) :
    docKey (formatRow geohashForLocation now r) = "hitchwiki-" ++ r.id ∧
      (insertRows store [formatRow geohashForLocation now r,
        formatRow geohashForLocation now r]).1 =
        (insertRows store [formatRow geohashForLocation now r]).1 := by
  refine ⟨docKey_formatRow _ _ _, ?_⟩
  unfold insertRows
  rw [insertRowsLoop_store, insertRowsLoop_store]
  simp only [List.foldl_cons, List.foldl_nil]
  exact setDoc_idem _ _ _

/-- Claim C7: the transform's user.name is the source name with the literal
substring "(Hitchwiki)" removed and whitespace trimmed, defaulting to the
empty string for an absent name; "Jane Doe (Hitchwiki)" becomes "Jane Doe",
and a null name becomes "". -/
theorem name_cleanup (geohashForLocation : Int → Int → String) (now : Timestamp)
    (r : SrcRow) :
    (formatRow geohashForLocation now r).user.name = cleanName r.name ∧
      cleanName (some "Jane Doe (Hitchwiki)") = "Jane Doe" ∧
      cleanName none = "" :=
  ⟨rfl, by decide, by decide⟩

/-- Claim C6: a selected source record has rating in 3..5 (given the source
range 1..5 of the data model), its transform's rating is rating - 2, and so
every ingested rating lies in 1..3. -/
theorem rating_rescale (db : List SrcRow) (cutoffTimestamp : Int)
    (geohashForLocation : Int → Int → String) (now : Timestamp) (r : SrcRow)
    (hmem : r ∈ getSrcRows db cutoffTimestamp) (hdom : r.rating ≤ 5) :
    (3 ≤ r.rating ∧ r.rating ≤ 5) ∧
      (formatRow geohashForLocation now r).rating = r.rating - 2 ∧
      1 ≤ (formatRow geohashForLocation now r).rating ∧
      (formatRow geohashForLocation now r).rating ≤ 3 := by
  have h := (mem_getSrcRows.mp hmem).2
  rw [rowSelected_iff] at h
  obtain ⟨-, -, hrat, -⟩ := h
  have h2 : (formatRow geohashForLocation now r).rating = r.rating - 2 := rfl
  refine ⟨⟨by omega, hdom⟩, h2, ?_, ?_⟩ <;> rw [h2] <;> omega

theorem mergeSort_single {α : Type} (le : α → α → Bool) (a : α) :
    [a].mergeSort le = [a] :=
  List.perm_singleton.mp (List.mergeSort_perm [a] le)

theorem getSrcRows_sample : getSrcRows [sampleSrcRow] 0 = [sampleSrcRow] := by
  unfold getSrcRows
  rw [show List.filter (rowSelected 0) [sampleSrcRow] = [sampleSrcRow] from by decide]
  exact mergeSort_single _ _

/-- Witness for C6 at the spec's concrete scenario row (rating 4). -/
theorem rating_rescale_witness :
    (3 ≤ sampleSrcRow.rating ∧ sampleSrcRow.rating ≤ 5) ∧
      (formatRow sampleGeohash ⟨0, 0⟩ sampleSrcRow).rating = sampleSrcRow.rating - 2 ∧
      1 ≤ (formatRow sampleGeohash ⟨0, 0⟩ sampleSrcRow).rating ∧
      (formatRow sampleGeohash ⟨0, 0⟩ sampleSrcRow).rating ≤ 3 :=
  rating_rescale [sampleSrcRow] 0 sampleGeohash ⟨0, 0⟩ sampleSrcRow
    (by rw [getSrcRows_sample]; exact List.mem_singleton.mpr rfl) (by decide)

/-- Claim C10: the name cleanup removes only the first occurrence of
"(Hitchwiki)": when the pattern first occurs right after a prefix a, the
replace step yields a ++ b, so every later occurrence (inside b) survives
into the transformed user.name (up to the final trim). -/
theorem replace_removes_first_occurrence_only (a b : List Char)
    (hfirst : ∀ i, i < a.length →
      hitchwikiTag.isPrefixOf ((a ++ (hitchwikiTag ++ b)).drop i) = false) :
    removeFirstOcc hitchwikiTag (a ++ (hitchwikiTag ++ b)) = a ++ b ∧
      cleanName (some (a ++ (hitchwikiTag ++ b)).asString) =
        (trimChars (a ++ b)).asString := by
  have h := removeFirstOcc_at_first hitchwikiTag a b hfirst
  refine ⟨h, ?_⟩
  unfold cleanName
  rw [Option.getD_some]
  rw [show ((a ++ (hitchwikiTag ++ b)).asString).data = a ++ (hitchwikiTag ++ b) from rfl]
  rw [h]

/-- Witness for C10: the name "A (Hitchwiki) B (Hitchwiki)" keeps its second
occurrence of the tag after cleanup. -/
theorem replace_removes_first_occurrence_only_witness :
    (removeFirstOcc hitchwikiTag
        ("A ".data ++ (hitchwikiTag ++ " B (Hitchwiki)".data)) =
      "A ".data ++ " B (Hitchwiki)".data ∧
      cleanName (some ("A ".data ++ (hitchwikiTag ++ " B (Hitchwiki)".data)).asString) =
        (trimChars ("A ".data ++ " B (Hitchwiki)".data)).asString) ∧
      cleanName (some "A (Hitchwiki) B (Hitchwiki)") = "A  B (Hitchwiki)" :=
  ⟨replace_removes_first_occurrence_only "A ".data " B (Hitchwiki)".data (by decide),
    by decide⟩

theorem resolveCutoff_le_insert (store : Store) (rows : List DstRow)
    (done total : Nat) (logs : List LogEvent)
    (hrows : ∀ row ∈ rows, row.source.type = "hitchwiki" ∧
      resolveCutoff store ≤ row.submittedTimestamp.seconds) :
    resolveCutoff store ≤ resolveCutoff (insertRowsLoop store done total logs rows).1 := by
  rcases hm : getLastIngestedRow store with _ | m
  · rcases hm2 : getLastIngestedRow (insertRowsLoop store done total logs rows).1 with _ | d
    · simp [resolveCutoff, hm, hm2]
    · obtain ⟨hdtype, ⟨k, hdmem⟩, -⟩ := getLastIngestedRow_spec hm2
      rcases mem_insertRowsLoop_store rows store done total logs (k, d) hdmem with h2 | ⟨h2, -⟩
      · exact absurd hdtype (getLastIngestedRow_eq_none hm (k, d) h2)
      · have hb := (hrows d h2).2
        simpa [resolveCutoff, hm2] using hb
  · obtain ⟨htypem, ⟨k, hmemm⟩, -⟩ := getLastIngestedRow_spec hm
    obtain ⟨v2, hmem2, hv2⟩ := exists_mem_insertRowsLoop_store rows store done total logs k m hmemm
    have htype2 : v2.source.type = "hitchwiki" := by
      rcases hv2 with h2 | h2
      · rw [h2]; exact htypem
      · exact (hrows v2 h2).1
    have hsec2 : resolveCutoff store ≤ v2.submittedTimestamp.seconds := by
      rcases hv2 with h2 | h2
      · rw [h2]; simp [resolveCutoff, hm]
      · exact (hrows v2 h2).2
    obtain ⟨d, hd⟩ := getLastIngestedRow_isSome hmem2 htype2
    obtain ⟨-, -, hmax⟩ := getLastIngestedRow_spec hd
    have h3 := Timestamp.seconds_le_of_le (hmax (k, v2) hmem2 htype2)
    calc resolveCutoff store ≤ v2.submittedTimestamp.seconds := hsec2
      _ ≤ d.submittedTimestamp.seconds := h3
      _ = resolveCutoff (insertRowsLoop store done total logs rows).1 := by
          simp [resolveCutoff, hd]

/-- Claim C2: the cutoff resolvable after a pass is at least the cutoff that
pass used, because every record it wrote was selected with creation time
strictly after that cutoff and the watermark is the maximum persisted
submittedTimestamp. -/
theorem watermark_cutoff_monotone (geohashForLocation : Int → Int → String)
    (now : SrcRow → Timestamp) (srcDb : List SrcRow) (store : Store) :
    resolveCutoff store ≤ resolveCutoff (passStore geohashForLocation now srcDb store) := by
  have hunfold : passStore geohashForLocation now srcDb store =
      (insertRowsLoop store 0
        ((getSrcRows srcDb (resolveCutoff store)).map fun r =>
          formatRow geohashForLocation (now r) r).length []
        ((getSrcRows srcDb (resolveCutoff store)).map fun r =>
          formatRow geohashForLocation (now r) r)).1 := rfl
  rw [hunfold]
  apply resolveCutoff_le_insert
  intro row hrow
  obtain ⟨r, hr, hform⟩ := List.mem_map.mp hrow
  subst hform
  refine ⟨rfl, ?_⟩
  have hsel := (mem_getSrcRows.mp hr).2
  rw [rowSelected_iff] at hsel
  show resolveCutoff store ≤ r.datetime.seconds
  rcases hsel.2.2.2 with h | ⟨h, -⟩
  · exact Int.le_of_lt h
  · exact Int.le_of_eq h

/-- Claim C8 counterexample: a run whose only failure is a failed upsert on
the first (and only) record of the batch ends with process exit code 0 — the
try/catch on lines 212-217 swallows the write error — refuting the claim
that any stage failure yields a non-zero exit. -/
theorem write_failure_exit_code_zero :
    ingestProcess false false false false (some 0) sampleGeohash sampleNow
        [sampleSrcRow] [] = ([], 0) ∧
      (getSrcRows [sampleSrcRow] (resolveCutoff [])).length = 1 := by
  have h1 : resolveCutoff ([] : Store) = 0 := rfl
  constructor
  · show (match insertRowsFallible (some 0) [] 0
        ((getSrcRows [sampleSrcRow] (resolveCutoff [])).map fun r =>
          formatRow sampleGeohash (sampleNow r) r) with
      | Except.ok s => (s, 0)
      | Except.error s => (s, 0)) = ([], 0)
    rw [h1, getSrcRows_sample]
    rfl
  · rw [h1, getSrcRows_sample]
    rfl

/-- Claim C8 as amended: the process exit code is 0 exactly when no stage
before the write stage failed — transport, watermark-read, selection and
transform failures give a non-zero exit (unhandled rejection), but a write
failure is caught, logged and the process still exits 0. -/
theorem exit_code_zero_iff_prewrite_stages_ok (dlFails wmFails selFails tfFails : Bool)
    (writeFailAt : Option Nat) (geohashForLocation : Int → Int → String)
    (now : SrcRow → Timestamp) (srcDb : List SrcRow) (store : Store) :
    (ingestProcess dlFails wmFails selFails tfFails writeFailAt geohashForLocation now
        srcDb store).2 = 0 ↔
      dlFails = false ∧ wmFails = false ∧ selFails = false ∧ tfFails = false := by
  have hok : (ingestProcess false false false false writeFailAt geohashForLocation now
      srcDb store).2 = 0 := by
    show (match insertRowsFallible writeFailAt store 0
        ((getSrcRows srcDb (resolveCutoff store)).map fun r =>
          formatRow geohashForLocation (now r) r) with
      | Except.ok s => (s, 0)
      | Except.error s => (s, 0)).2 = 0
    cases insertRowsFallible writeFailAt store 0
        ((getSrcRows srcDb (resolveCutoff store)).map fun r =>
          formatRow geohashForLocation (now r) r) <;> rfl
  cases dlFails
  · cases wmFails
    · cases selFails
      · cases tfFails
        · simp [hok]
        · have h : (ingestProcess false false false true writeFailAt geohashForLocation
              now srcDb store).2 = 1 := rfl
          simp [h]
      · have h : (ingestProcess false false true tfFails writeFailAt geohashForLocation
            now srcDb store).2 = 1 := rfl
        simp [h]
    · have h : (ingestProcess false true selFails tfFails writeFailAt geohashForLocation
          now srcDb store).2 = 1 := rfl
      simp [h]
  · have h : (ingestProcess true wmFails selFails tfFails writeFailAt geohashForLocation
        now srcDb store).2 = 1 := rfl
    simp [h]

/-- A stored hitchwiki document whose watermark timestamp has a sub-second
component. -/
def sampleWatermarkDoc : DstRow :=
  ⟨⟨0, 0⟩, "", 1, ⟨"guest", ""⟩, ⟨100, 500000000⟩, ⟨"hitchwiki", "9", ⟨0, 0⟩⟩⟩

/-- A store holding only that watermark document. -/
def sampleStore9 : Store := [("hitchwiki-9", sampleWatermarkDoc)]

/-- A source row created later within the watermark's second. -/
def sampleSubsecondRow : SrcRow :=
  ⟨"42", 10, 20, 4, none, ⟨100, 600000000⟩, false, true⟩

/-- Claim C9: the cutoff passed to selection is the whole-second truncation
(.seconds) of the latest persisted submittedTimestamp; for a watermark with
a sub-second component the cutoff is strictly below the stored timestamp,
and an otherwise-eligible source record created later within that same
second is re-selected and its document slot overwritten by the pass — never
skipped. -/
theorem subsecond_watermark_reselection
    (geohashForLocation : Int → Int → String) (now : SrcRow → Timestamp)
    (srcDb : List SrcRow) (store : Store) (m : DstRow) (r : SrcRow)
    (hm : getLastIngestedRow store = some m)
    (hnanos : 0 < m.submittedTimestamp.nanos)
    (hsec : r.datetime.seconds = m.submittedTimestamp.seconds)
    (hrn : 0 < r.datetime.nanos)
    (hb : r.banned = false) (hrev : r.reviewed = true) (hrat : 2 < r.rating)
    (hmemdb : r ∈ srcDb) :
    resolveCutoff store = m.submittedTimestamp.seconds ∧
      (⟨resolveCutoff store, 0⟩ : Timestamp) < m.submittedTimestamp ∧
      r ∈ getSrcRows srcDb (resolveCutoff store) ∧
      ∃ d r2, getDoc (passStore geohashForLocation now srcDb store)
          ("hitchwiki-" ++ r.id) = some d ∧
        r2 ∈ getSrcRows srcDb (resolveCutoff store) ∧ r2.id = r.id ∧
        d = formatRow geohashForLocation (now r2) r2 := by
  have hcut : resolveCutoff store = m.submittedTimestamp.seconds := by
    simp [resolveCutoff, hm]
  have hselmem : r ∈ getSrcRows srcDb (resolveCutoff store) := by
    rw [mem_getSrcRows]
    refine ⟨hmemdb, ?_⟩
    rw [rowSelected_iff]
    refine ⟨hb, hrev, hrat, ?_⟩
    rw [hcut]
    exact Or.inr ⟨hsec.symm, hrn⟩
  refine ⟨hcut, ?_, hselmem, ?_⟩
  · rw [hcut]
    exact Or.inr ⟨rfl, hnanos⟩
  · have hkey : ∃ row ∈ (getSrcRows srcDb (resolveCutoff store)).map
        (fun r2 => formatRow geohashForLocation (now r2) r2),
        docKey row = "hitchwiki-" ++ r.id :=
      ⟨formatRow geohashForLocation (now r) r, List.mem_map_of_mem _ hselmem,
        docKey_formatRow _ _ _⟩
    have hunfold : passStore geohashForLocation now srcDb store =
        (insertRowsLoop store 0
          ((getSrcRows srcDb (resolveCutoff store)).map fun r2 =>
            formatRow geohashForLocation (now r2) r2).length []
          ((getSrcRows srcDb (resolveCutoff store)).map fun r2 =>
            formatRow geohashForLocation (now r2) r2)).1 := rfl
    rw [hunfold]
    obtain ⟨v, hget, hvmem, hvkey⟩ := getDoc_insertRowsLoop_written _ _ _ _ _ _ hkey
    obtain ⟨r2, hr2, hform⟩ := List.mem_map.mp hvmem
    refine ⟨v, r2, hget, hr2, ?_, hform.symm⟩
    have heq : "hitchwiki-" ++ r2.id = "hitchwiki-" ++ r.id := by
      rw [← docKey_formatRow geohashForLocation (now r2) r2, hform, hvkey]
    exact String.append_cancel_prefix heq

/-- Witness for C9: watermark at 100.5s, a source row at 100.6s within the
same second is re-selected and written. -/
theorem subsecond_watermark_reselection_witness :
    resolveCutoff sampleStore9 = sampleWatermarkDoc.submittedTimestamp.seconds ∧
      (⟨resolveCutoff sampleStore9, 0⟩ : Timestamp) < sampleWatermarkDoc.submittedTimestamp ∧
      sampleSubsecondRow ∈ getSrcRows [sampleSubsecondRow] (resolveCutoff sampleStore9) ∧
      ∃ d r2, getDoc (passStore sampleGeohash sampleNow [sampleSubsecondRow] sampleStore9)
          ("hitchwiki-" ++ sampleSubsecondRow.id) = some d ∧
        r2 ∈ getSrcRows [sampleSubsecondRow] (resolveCutoff sampleStore9) ∧
        r2.id = sampleSubsecondRow.id ∧
        d = formatRow sampleGeohash (sampleNow r2) r2 :=
  subsecond_watermark_reselection sampleGeohash sampleNow [sampleSubsecondRow]
    sampleStore9 sampleWatermarkDoc sampleSubsecondRow (by decide) (by decide)
    (by decide) (by decide) (by decide) (by decide) (by decide) (by decide)
